import Mathlib

/-!
Verification development for the Delphi document-chunking worker
(`backend/lambda/delphi_chunk_processor.py` and the chunk read model in
`backend/lambda/delphi_vault_chunks.py`).

Shallow embedding conventions:
* Python strings are embedded as `List Char` (`Str`); `str.strip()` is
  `stripL` (drop leading and trailing whitespace), `s[-n:]` is `takeLast`,
  `s[:n]` is `List.take`.
* Python `set` of page numbers is a duplicate-free `List Nat` maintained by
  `pageInsert`; `sorted(list(...))` is `sortNat` (insertion sort).
* Machine integers are `Nat`/`Int`/`ℚ` with exact arithmetic; `int(x)` on a
  non-negative value is the floor (`pyInt`).
* Fallible code returns `Except PyErr`; `PyErr` mirrors the exception
  classes the worker distinguishes (`PermissionError` vs everything else).
* External services (Textract, Bedrock, DynamoDB writes, `json.loads` from
  the standard library, `uuid4`, clocks) are modelled as inputs: a Bedrock
  call outcome is an `Except PyErr (Option JVal)` (the raw string response
  already passed through `_safe_json_loads`, `none` meaning unparseable),
  the Textract stage outcome is an `Except PyErr (List TextLine)`, and
  DynamoDB writes are recorded as emitted values rather than performed.
-/

namespace Delphi

abbrev Str := List Char

/-- Whitespace test used by the embedded `str.strip()` / `\s` of the source's
string handling. -/
def isWS (c : Char) : Bool := c.isWhitespace

/-- Embedded `str.lstrip()`: drop leading whitespace. -/
def lstripL (l : Str) : Str := l.dropWhile isWS

/-- Embedded `str.rstrip()`: drop trailing whitespace. -/
def rstripL (l : Str) : Str := (l.reverse.dropWhile isWS).reverse

/-- Embedded `str.strip()`: drop whitespace at both ends. -/
def stripL (l : Str) : Str := rstripL (lstripL l)

/-- Embedded Python slice `s[-n:]` (for `n > 0`): the last `min n (length s)`
characters. -/
def takeLast (n : Nat) (l : Str) : Str := l.drop (l.length - n)

/-- `beginsWith p l` holds when `l` starts with the block `p`. -/
def beginsWith (p l : Str) : Prop := l.take p.length = p

instance (p l : Str) : Decidable (beginsWith p l) := by
  unfold beginsWith; infer_instance

/-- Extracted text line (`{"text": ..., "page": ...}` dict produced by
`_extract_textract_lines` and consumed by the chunkers). -/
structure TextLine where
  text : Str
  page : Nat
deriving DecidableEq

/-- Chunk dict produced by `chunk_text_with_offsets`
(`{"text", "start", "end", "pages"}`; the source's `end` key is `endIdx`
here because `end` is a Lean keyword). -/
structure Chunk where
  text : Str
  start : Nat
  endIdx : Nat
  pages : List Nat
deriving DecidableEq

/-- Insertion step of the insertion sort embedding `sorted(...)`. -/
def sortInsert (n : Nat) : List Nat → List Nat
  | [] => [n]
  | m :: rest => if n ≤ m then n :: m :: rest else m :: sortInsert n rest

/-- Embedded `sorted(list(pages))` on the duplicate-free page list. -/
def sortNat : List Nat → List Nat
  | [] => []
  | n :: rest => sortInsert n (sortNat rest)

/-- Embedded `current_pages.add(page)` on the set of pages (duplicate-free
list with membership test, mirroring a Python `set`). -/
def pageInsert (p : Nat) (pages : List Nat) : List Nat :=
  if p ∈ pages then pages else p :: pages

/-- Loop body of `chunk_text_with_offsets` (delphi_chunk_processor.py,
lines 53-90), recursing over the remaining lines with the running buffer
`cur`, the page set and the running character offset as explicit state.
The source's locals `end_idx = char_count + len(current_chunk)` and
`overlap_text = current_chunk[-overlap:] if overlap > 0 else ""` are
inlined. The subtraction never truncates (the overlap text is a suffix of
the buffer), matching the Python integer arithmetic. -/
def chunkLoop (chunkSize overlap : Nat) :
    List TextLine → Str → List Nat → Nat → List Chunk
  | [], cur, pages, charCount =>
    if cur ≠ [] then
      [⟨stripL cur, charCount, charCount + cur.length, sortNat pages⟩]
    else []
  | line :: rest, cur, pages, charCount =>
    if chunkSize < cur.length + line.text.length + 1 then
      ⟨stripL cur, charCount, charCount + cur.length, sortNat pages⟩ ::
        chunkLoop chunkSize overlap rest
          (stripL ((if 0 < overlap then takeLast overlap cur else []) ++ ' ' :: line.text))
          [line.page]
          (charCount + cur.length -
            (if 0 < overlap then takeLast overlap cur else []).length)
    else
      chunkLoop chunkSize overlap rest (stripL (cur ++ ' ' :: line.text))
        (pageInsert line.page pages) charCount

/-- Embedded `chunk_text_with_offsets(lines, chunk_size, overlap)`; the
source's default arguments are `800` and `100`, passed explicitly at every
call site here. -/
def chunk_text_with_offsets (lines : List TextLine)
    (chunk_size : Nat) (overlap : Nat) : List Chunk :=
  chunkLoop chunk_size overlap lines [] [] 0

deriving instance DecidableEq for Except

/-! ### Exceptions -/

/-- Exception classes the worker distinguishes. `permission` embeds
`PermissionError` (raised by `_bedrock_chat` for Bedrock
`AccessDeniedException`/`AccessDenied` client errors); everything else is
caught by the generic `except Exception` handlers. -/
inductive PyErr where
  | permission (msg : Str)
  | clientError (code : Str) (msg : Str)
  | timeoutError (msg : Str)
  | runtimeError (msg : Str)
  | keyError (k : Str)
  | attributeError (msg : Str)
  | typeError (msg : Str)
deriving DecidableEq

/-- True exactly for `PermissionError` (the `except PermissionError` test). -/
def PyErr.isPerm : PyErr → Bool
  | .permission _ => true
  | _ => false

/-- The apostrophe character (written via its code point to keep source
plain). -/
def quoteC : Char := Char.ofNat 39

/-- Embedded `str(e)`: the carried message; a `KeyError` renders as the
quoted key, as in Python. -/
def PyErr.pymsg : PyErr → Str
  | .permission m => m
  | .clientError _ m => m
  | .timeoutError m => m
  | .runtimeError m => m
  | .keyError k => quoteC :: k ++ [quoteC]
  | .attributeError m => m
  | .typeError m => m

/-! ### JSON values (results of the standard library parse) -/

/-- Parsed JSON value. `_safe_json_loads` delegates to the standard library
`json` module (external); the embedding takes its result as input, `none`
standing for an unparseable response (strict parse and brace-recovery both
failed). JSON numbers are embedded as integers. -/
inductive JVal where
  | null
  | bool (b : Bool)
  | num (n : Int)
  | str (s : Str)
  | arr (xs : List JVal)
  | obj (fields : List (Str × JVal))

/-- Dictionary lookup on a JSON object's field list. -/
def jget (fields : List (Str × JVal)) (k : Str) : Option JVal :=
  (fields.find? fun p => p.1 == k).map (·.2)

/-- Python truthiness of a JSON value. -/
def jTruthy : JVal → Bool
  | .null => false
  | .bool b => b
  | .num n => n != 0
  | .str s => !s.isEmpty
  | .arr xs => !xs.isEmpty
  | .obj fs => !fs.isEmpty

/-- Embedded `str(...)` on a JSON value. Containers render to an abstract
placeholder (no claim depends on Python's exact `repr` of dicts/lists). -/
def pyStr : JVal → Str
  | .null => "None".toList
  | .bool true => "True".toList
  | .bool false => "False".toList
  | .num n => (toString n).toList
  | .str s => s
  | .arr _ => "[...]".toList
  | .obj _ => "\x7b...\x7d".toList

/-- Embedded attribute access `data.get(key)`: Python raises
`AttributeError` when `data` is not a dict (possible because
`_safe_json_loads` may return any truthy JSON value). -/
def pyGetE (v : JVal) (k : Str) : Except PyErr (Option JVal) :=
  match v with
  | .obj fs => .ok (jget fs k)
  | _ => .error (.attributeError "get".toList)

/-- Embedded `_safe_json_loads(out) or {}` given the already-parsed result. -/
def pyOrEmptyObj (parsed : Option JVal) : JVal :=
  match parsed with
  | some v => if jTruthy v then v else .obj []
  | none => .obj []

/-- Embedded `x or dflt` for JSON values: `dflt` when `x` is missing or
falsy. -/
def pyOr (v : Option JVal) (dflt : JVal) : JVal :=
  match v with
  | some x => if jTruthy x then x else dflt
  | none => dflt

def JVal.isStr : JVal → Bool
  | .str _ => true
  | _ => false

def JVal.asStr : JVal → Str
  | .str s => s
  | _ => []

/-! ### Proposition extraction -/

/-- Leading text of the user prompt of `extract_propositions_from_text`. -/
def extractUserHeader : Str :=
  "From the following text, extract a list of concise propositions. Avoid duplicates and overly long items.\n\nText:\n".toList

/-- Trailing text of the same prompt. -/
def extractUserFooter : Str :=
  "\n\nReturn JSON with key \x27sentences\x27.".toList

/-- The user message passed to `_bedrock_chat` by
`extract_propositions_from_text`. In the source this f-string is built
BEFORE the `full_text = full_text[:20000]` truncation, so it embeds the
whole `full_text`. -/
def extract_user_prompt (full_text : Str) : Str :=
  extractUserHeader ++ full_text ++ extractUserFooter

/-- Split on every newline character, keeping empty pieces. -/
def splitOnNL : Str → List Str
  | [] => [[]]
  | c :: rest =>
    if c = '\n' then [] :: splitOnNL rest
    else
      match splitOnNL rest with
      | p :: ps => (c :: p) :: ps
      | [] => [[c]]

/-- Embedded `str.splitlines()` restricted to the `'\n'` separator (the
only line break the worker's own joins introduce): a trailing newline does
not produce a final empty piece, and splitting the empty string gives `[]`. -/
def splitlines (s : Str) : List Str :=
  if s = [] then []
  else if s.getLast? = some '\n' then (splitOnNL s).dropLast
  else splitOnNL s

/-- True when the character ends a sentence (`[.!?]` of the regex). -/
def isSentEnd (o : Option Char) : Bool :=
  match o with
  | some c => c == '.' || c == '!' || c == '?'
  | none => false

/-- State machine equivalent of `re.split` with the pattern "whitespace run
directly after `.`, `!` or `?`": `acc` holds the current piece reversed;
`skipping` is true while consuming a separator run. -/
def sentMach : Str → Str → Bool → List Str
  | [], acc, _ => [acc.reverse]
  | c :: rest, acc, skipping =>
    if skipping then
      if isWS c then sentMach rest acc true
      else sentMach rest [c] false
    else
      if isWS c && isSentEnd acc.head? then acc.reverse :: sentMach rest [] true
      else sentMach rest (c :: acc) false

def sentSplit (line : Str) : List Str := sentMach line [] false

/-- One line's contribution to the naive splitter:
`[p.strip() for p in re.split(...) if p.strip()]`. -/
def naiveLine (line : Str) : List Str :=
  (sentSplit line).filterMap fun p =>
    let q := stripL p
    if q.isEmpty then none else some q

/-- Naive sentence-split fallback of `extract_propositions_from_text`
(applied line by line to its truncated local text), capped at 1000. -/
def naive_propositions (full_text : Str) : List Str :=
  ((splitlines full_text).map naiveLine).flatten.take 1000

/-- Deduplication loop of `extract_propositions_from_text`: strip each
truthy sentence, keep it when non-empty and not seen before, preserving
first-seen order. -/
def dedupStrip : List Str → List Str → List Str
  | [], _ => []
  | s :: rest, seen =>
    if s ≠ [] then
      let q := stripL s
      if q ≠ [] ∧ q ∉ seen then q :: dedupStrip rest (q :: seen)
      else dedupStrip rest seen
    else dedupStrip rest seen

/-- Embedded `extract_propositions_from_text` (delphi_chunk_processor.py,
lines 144-173). `resp` is the outcome of `_bedrock_chat` composed with
`_safe_json_loads`. Faithful to the source's statement order, the request
text `extract_user_prompt full_text` is built from the untruncated text;
the `[:20000]` truncation only rebinds the local used by the naive
fallback. -/
def extract_propositions_from_text (resp : Except PyErr (Option JVal))
    (full_text : Str) : Except PyErr (List Str) :=
  let truncated := if 20000 < full_text.length then full_text.take 20000 else full_text
  match resp with
  | .error e => .error e
  | .ok parsed =>
    match pyGetE (pyOrEmptyObj parsed) "sentences".toList with
    | .error e => .error e
    | .ok sentencesOpt =>
      let result :=
        match sentencesOpt with
        | some (.arr xs) =>
          if xs.all JVal.isStr then dedupStrip (xs.map JVal.asStr) [] else []
        | _ => []
      if result ≠ [] then .ok result
      else .ok (naive_propositions truncated)

/-! ### Clustering -/

/-- Validated proposition cluster (`{"chunk_id", "title", "summary",
"propositions"}`). -/
structure PCluster where
  chunk_id : Str
  title : Str
  summary : Str
  propositions : List Str
deriving DecidableEq

/-- Two-digit zero-padded rendering used by the default chunk id
`f"c{i+1:02d}"`. -/
def twoDigit (n : Nat) : Str :=
  if n < 10 then '0' :: (toString n).toList else (toString n).toList

/-- Default title `f"Chunk {i+1}"`. -/
def chunkDefaultTitle (n : Nat) : Str := "Chunk ".toList ++ (toString n).toList

/-- Embedded `(x or dflt).strip()` where `dflt` is a string (the
`title`/`summary` expressions of the cluster validation loop): Python
raises `AttributeError` when the value is truthy but not a string, since
only `str` has `.strip()`. -/
def pyOrStrip (v : Option JVal) (dflt : Str) : Except PyErr Str :=
  match v with
  | some x =>
    if jTruthy x then
      match x with
      | .str s => .ok (stripL s)
      | _ => .error (.attributeError "strip".toList)
    else .ok (stripL dflt)
  | none => .ok (stripL dflt)

/-- Embedded `[p.strip() for p in (ch.get("propositions") or []) if
isinstance(p, str) and p.strip()]`: a list iterates its elements (only the
string ones pass `isinstance`), a string iterates its characters (each a
one-character string), a dict iterates its keys (JSON keys are strings); a
truthy number or boolean is not iterable and raises `TypeError`. -/
def parse_props (v : Option JVal) : Except PyErr (List Str) :=
  match pyOr v (.arr []) with
  | .arr xs => .ok (xs.filterMap fun x =>
      match x with
      | .str s => if (stripL s).isEmpty then none else some (stripL s)
      | _ => none)
  | .str s => .ok ((s.map fun c => [c]).filterMap fun p =>
      if (stripL p).isEmpty then none else some (stripL p))
  | .obj fs => .ok ((fs.map Prod.fst).filterMap fun k =>
      if (stripL k).isEmpty then none else some (stripL k))
  | _ => .error (.typeError "propositions value is not iterable".toList)

/-- Validation of one candidate cluster dict (loop body of
`cluster_propositions_agentically`, lines 195-212): `.ok none` for a
non-dict entry or when no valid proposition remains (`continue`);
`.error` when the Python loop body raises (non-string truthy
title/summary, non-iterable truthy propositions), which escapes
`cluster_propositions_agentically`. -/
def parse_cluster (i : Nat) (ch : JVal) : Except PyErr (Option PCluster) :=
  match ch with
  | .obj fs =>
    match pyOrStrip (jget fs "title".toList) (chunkDefaultTitle (i + 1)) with
    | .error e => .error e
    | .ok title =>
      match pyOrStrip (jget fs "summary".toList) title with
      | .error e => .error e
      | .ok summary =>
        match parse_props (jget fs "propositions".toList) with
        | .error e => .error e
        | .ok props =>
          if props.isEmpty then .ok none
          else .ok (some
            ⟨(pyStr (pyOr (jget fs "chunk_id".toList)
                (.str ('c' :: twoDigit (i + 1))))).take 8,
              title, summary, props⟩)
  | _ => .ok none

/-- The `for i, ch in enumerate(chunks)` validation loop: a raised
exception discards the clusters validated so far and propagates. -/
def parse_clusters_loop (i : Nat) : List JVal → Except PyErr (List PCluster)
  | [] => .ok []
  | ch :: rest =>
    match parse_cluster i ch with
    | .error e => .error e
    | .ok none => parse_clusters_loop (i + 1) rest
    | .ok (some c) =>
      match parse_clusters_loop (i + 1) rest with
      | .error e => .error e
      | .ok cs => .ok (c :: cs)

/-- Parsing+validation part of `cluster_propositions_agentically` applied
to `data = _safe_json_loads(out) or {}` (an `isinstance(chunks, list)`
failure yields no clusters). -/
def parse_clusters (data : JVal) : Except PyErr (List PCluster) :=
  match pyGetE data "chunks".toList with
  | .error e => .error e
  | .ok v =>
    match v with
    | some (.arr cs) => parse_clusters_loop 0 cs
    | _ => .ok []

/-- The synthesized fallback cluster (lines 213-221). -/
def general_cluster (props : List Str) : PCluster :=
  ⟨"c0001".toList, "General".toList, "General related content".toList, props⟩

/-- Embedded `cluster_propositions_agentically` (lines 176-222). With no
propositions it returns `[]` before any model call; otherwise `resp` is
the model call outcome. When validation recovers zero clusters, the single
"General" fallback cluster carries the full proposition list. -/
def cluster_propositions_agentically (resp : Except PyErr (Option JVal))
    (propositions : List Str) : Except PyErr (List PCluster) :=
  if propositions = [] then .ok []
  else
    match resp with
    | .error e => .error e
    | .ok parsed =>
      match parse_clusters (pyOrEmptyObj parsed) with
      | .error e => .error e
      | .ok result =>
        .ok (if result.isEmpty then [general_cluster propositions] else result)

/-! ### Agentic chunker -/

/-- A chunk dict flowing to the storage loop: either an agentic chunk
(`{"text", "title", "summary", "chunk_id"}`) or a naive chunk passed along
unchanged by the fallback return. -/
inductive AnyChunk where
  | agentic (text : Str) (title : Str) (summary : Str) (chunk_id : Str)
  | naive (c : Chunk)
deriving DecidableEq

/-- Embedded `"\n".join(l.get("text", "") for l in lines if l and l.get("text"))`. -/
def agentic_full_text (lines : List TextLine) : Str :=
  List.intercalate ['\n'] ((lines.filter fun l => !l.text.isEmpty).map TextLine.text)

/-- Lines handed to the naive chunker by the agentic fallback
(`[{"text": t, "page": 1} for t in full_text.splitlines() if t.strip()]`):
rebuilt from the joined text, every page is `1`. -/
def agentic_fallback_lines (full_text : Str) : List TextLine :=
  ((splitlines full_text).filter fun t => !(stripL t).isEmpty).map fun t => ⟨t, 1⟩

/-- The `try/except` around proposition extraction inside
`agentic_chunk_text` (lines 227-235): `PermissionError` is re-raised, any
other exception yields an empty proposition list. -/
def agentic_propositions_stage (exResp : Except PyErr (Option JVal))
    (full_text : Str) : Except PyErr (List Str) :=
  match extract_propositions_from_text exResp full_text with
  | .ok ps => .ok ps
  | .error e => if e.isPerm then .error e else .ok []

/-- The `try/except` around clustering inside `agentic_chunk_text` (lines
236-244): `PermissionError` is re-raised, any other exception yields an
empty cluster list. -/
def agentic_clusters_stage (clResp : Except PyErr (Option JVal))
    (propositions : List Str) : Except PyErr (List PCluster) :=
  match cluster_propositions_agentically clResp propositions with
  | .ok cs => .ok cs
  | .error e => if e.isPerm then .error e else .ok []

/-- Embedded `agentic_chunk_text` (lines 225-262). `exResp`/`clResp` are
the outcomes of the (at most) two Bedrock calls it may make. -/
def agentic_chunk_text (exResp clResp : Except PyErr (Option JVal))
    (lines : List TextLine) : Except PyErr (List AnyChunk) :=
  let full_text := agentic_full_text lines
  match agentic_propositions_stage exResp full_text with
  | .error e => .error e
  | .ok propositions =>
    match agentic_clusters_stage clResp propositions with
    | .error e => .error e
    | .ok clusters =>
      let chunks := clusters.filterMap fun ch =>
        let text := List.intercalate ". ".toList ch.propositions
        if text.isEmpty then none
        else some (.agentic text ch.title ch.summary ch.chunk_id)
      if chunks.isEmpty then
        .ok ((chunk_text_with_offsets (agentic_fallback_lines full_text) 800 100).map .naive)
      else .ok chunks

/-! ### Job tracker and chunk writer -/

/-- DynamoDB attribute value (strings, numbers, or a list of page
numbers — the only shapes this worker writes or the read model formats). -/
inductive DVal where
  | s (v : Str)
  | n (v : Nat)
  | pages (v : List Nat)
deriving DecidableEq

/-- One attempted job-record update (the partial-update expression built by
`_update_job_state`, delphi_chunk_processor.py lines 287-338). The
`updated_at` stamp (wall clock) is implicit; write failures are logged and
swallowed by the source, so the attempted update is the observable. -/
structure JobUpdate where
  job_id : Str
  state : Option Str
  progress : Option Nat
  message : Option Str
  attrs : List (Str × DVal)
deriving DecidableEq

/-- Reserved field names that `attrs` cannot override. -/
def reservedAttrs : List Str :=
  ["state".toList, "progress".toList, "message".toList, "updated_at".toList]

/-- Embedded `_update_job_state`: the message is truncated to 1000
characters, reserved attribute names are skipped. -/
def update_job_state (job_id : Str) (state : Option Str) (progress : Option Nat)
    (message : Option Str) (attrs : List (Str × DVal)) : JobUpdate :=
  ⟨job_id, state, progress, message.map (List.take 1000),
    attrs.filter fun kv => !reservedAttrs.contains kv.1⟩

/-- The `failed` update attempted by the orchestrator's outer handler:
`_update_job_state(jt, job_id, state="failed", message=str(e))`. -/
def failedUpdate (job_id : Str) (e : PyErr) : JobUpdate :=
  update_job_state job_id (some "failed".toList) none (some e.pymsg) []

/-- Embedded `_put_chunk` item (lines 275-284): the exact attribute list of
the DynamoDB `put_item`. `now` stands for `datetime.utcnow().isoformat()`. -/
def put_chunk_item (chunk_id key title summary text now : Str) :
    List (Str × DVal) :=
  [("chunk_id".toList, .s chunk_id), ("file_key".toList, .s key),
   ("title".toList, .s title), ("summary".toList, .s summary),
   ("text".toList, .s text), ("updated_at".toList, .s now)]

/-- The `pages` value the chunks read model reports for a stored item:
`chunk.get('pages', [])` in `delphi_vault_chunks.get_chunks` (line 115). -/
def formatted_pages (item : List (Str × DVal)) : DVal :=
  match (item.find? fun p => p.1 == "pages".toList).map (·.2) with
  | some v => v
  | none => .pages []

/-! ### Textract extraction poller -/

/-- One iteration's observations of the polling loop: the `JobStatus` field
of `get_document_text_detection` and the wall-clock reading `time.time()`
after the 5-second sleep (the loop's two adjacent clock reads are merged
into one value). -/
structure PollObs where
  jobStatus : Str
  t : ℚ
deriving DecidableEq

/-- A heartbeat the poll loop hands to `progress_cb`. -/
structure PollHB where
  state : Str
  progress : ℤ
deriving DecidableEq

/-- How the polling loop ends: terminal success, terminal failure
(`RuntimeError`), timeout (`TimeoutError`), or observations exhausted with
the external job still running. -/
inductive PollExit where
  | success
  | failedJob (st : Str)
  | timedOut
  | exhausted
deriving DecidableEq

/-- Embedded Python `int(q)` (truncation toward zero) on exact rationals. -/
def pyInt (q : ℚ) : ℤ := if 0 ≤ q then ⌊q⌋ else -⌊-q⌋

/-- Polling loop of `_extract_textract_lines` (lines 370-394):
terminal-status check, timeout check (strict `>`), then the throttled
heartbeat — emitted when more than 15 time units passed since `lastHb`
(initially `0.0`) — with the heuristic progress
`min(55, 20 + int(elapsed / max_wait * 35))`. -/
def textract_poll (maxWait startTs : ℚ) :
    List PollObs → ℚ → List PollHB × PollExit
  | [], _ => ([], .exhausted)
  | o :: rest, lastHb =>
    if o.jobStatus = "SUCCEEDED".toList ∨ o.jobStatus = "FAILED".toList then
      if o.jobStatus ≠ "SUCCEEDED".toList then ([], .failedJob o.jobStatus)
      else ([], .success)
    else if maxWait < o.t - startTs then ([], .timedOut)
    else if 15 < o.t - lastHb then
      let est := min 55 (20 + pyInt ((o.t - startTs) / maxWait * 35))
      let r := textract_poll maxWait startTs rest o.t
      (⟨"textract_polling".toList, est⟩ :: r.1, r.2)
    else textract_poll maxWait startTs rest lastHb

/-! ### Orchestrator (`lambda_handler`, one SQS record) -/

/-- Parsed message body fields the handler reads; a missing `bucket` or
`key` raises `KeyError` (dict subscript), the others have defaults. -/
structure PyMsg where
  job_id : Option Str
  bucket : Option Str
  key : Option Str
  file_name : Option Str
deriving DecidableEq

/-- External outcomes driving one record's processing: the body parse
(`json.loads`), the trace of heartbeats the extraction stage emitted, the
extraction outcome, and the two Bedrock call outcomes. The jobs table is
taken as configured (`JOBS_TABLE` defaults to a non-empty name). -/
structure RecordInput where
  parsedBody : Except PyErr PyMsg
  extractionUpdates : List JobUpdate
  extractionResult : Except PyErr (List TextLine)
  exResp : Except PyErr (Option JVal)
  clResp : Except PyErr (Option JVal)

/-- Embedded `x or dflt` on an optional string (`msg.get(...) or ...`). -/
def pyOrOpt (v : Option Str) (dflt : Str) : Str :=
  match v with
  | some s => if s ≠ [] then s else dflt
  | none => dflt

/-- Embedded `c.get("title")` on a chunk dict (naive chunk dicts carry no
title). -/
def AnyChunk.getTitle : AnyChunk → Option Str
  | .agentic _ t _ _ => some t
  | .naive _ => none

/-- Embedded `c.get("summary")`. -/
def AnyChunk.getSummary : AnyChunk → Option Str
  | .agentic _ _ s _ => some s
  | .naive _ => none

/-- Embedded `c.get("text") or ""` (both chunk shapes carry a text key;
`or ""` maps an empty text to itself). -/
def AnyChunk.getText : AnyChunk → Str
  | .agentic t _ _ _ => t
  | .naive c => c.text

/-- Storage loop (lines 509-529): one `_put_chunk` per chunk with a fresh
uuid (`uuidGen idx`), and a throttled `storing_chunks` progress update when
the percentage `85 + int((idx+1)/total*13)` advanced by at least 3, every
10th chunk, or on the final chunk. -/
def storeLoop (job_id key : Str) (uuidGen : Nat → Str) (now : Str) (total : Nat) :
    List AnyChunk → Nat → Nat → List JobUpdate × List (List (Str × DVal))
  | [], _, _ => ([], [])
  | c :: rest, idx, lastEmitted =>
    let title := pyOrOpt c.getTitle (chunkDefaultTitle (idx + 1))
    let summary := pyOrOpt c.getSummary title
    let item := put_chunk_item (uuidGen idx) key title summary c.getText now
    let pct := 85 + 13 * (idx + 1) / total
    if 3 ≤ pct - lastEmitted ∨ (idx + 1) % 10 = 0 ∨ idx + 1 = total then
      let r := storeLoop job_id key uuidGen now total rest (idx + 1) pct
      (update_job_state job_id (some "storing_chunks".toList) (some pct) none
          [("stored_chunks".toList, .n (idx + 1))] :: r.1,
        item :: r.2)
    else
      let r := storeLoop job_id key uuidGen now total rest (idx + 1) lastEmitted
      (r.1, item :: r.2)

/-- Chunking step of the handler (lines 470-504). Note the agentic branch's
`try/except Exception` also catches the `PermissionError` re-raised by
`agentic_chunk_text` and falls back to the naive chunker. Returns the
updates this step attempted and the resulting chunk list. -/
def chunking_step (enableAgentic : Bool) (job_id : Str) (r : RecordInput)
    (lines : List TextLine) : List JobUpdate × List AnyChunk :=
  if enableAgentic then
    let u := update_job_state job_id (some "chunking_started".toList) (some 65) none []
    match agentic_chunk_text r.exResp r.clResp lines with
    | .ok chunks =>
      ([u, update_job_state job_id (some "chunking_completed".toList) (some 80) none
          [("prelim_chunk_count".toList, .n chunks.length)]], chunks)
    | .error _ =>
      let chunks := (chunk_text_with_offsets lines 800 100).map AnyChunk.naive
      ([u, update_job_state job_id (some "chunking_fallback_naive".toList) (some 75) none
          [("prelim_chunk_count".toList, .n chunks.length)]], chunks)
  else
    let chunks := (chunk_text_with_offsets lines 800 100).map AnyChunk.naive
    ([update_job_state job_id (some "chunking_started_naive".toList) (some 65) none [],
      update_job_state job_id (some "chunking_completed".toList) (some 80) none
        [("prelim_chunk_count".toList, .n chunks.length)]], chunks)

/-- Embedded per-record body of `lambda_handler` (lines 432-551): the
result (`.error e` when the record's processing re-raises `e` for SQS
redelivery), the attempted job updates in order, and the stored chunk
items. `freshJobId` models the `uuid4` drawn when the body carries no job
id. The `failed` update is only attempted when `job_id` is bound, i.e.
when the body parsed. -/
def processRecord (enableAgentic : Bool) (freshJobId : Str) (uuidGen : Nat → Str)
    (now : Str) (r : RecordInput) :
    Except PyErr Unit × List JobUpdate × List (List (Str × DVal)) :=
  match r.parsedBody with
  | .error e => (.error e, [], [])
  | .ok msg =>
    let job_id := pyOrOpt msg.job_id freshJobId
    match msg.bucket with
    | none =>
      (.error (.keyError "bucket".toList),
        [failedUpdate job_id (.keyError "bucket".toList)], [])
    | some _ =>
      match msg.key with
      | none =>
        (.error (.keyError "key".toList),
          [failedUpdate job_id (.keyError "key".toList)], [])
      | some key =>
        let file_name := pyOrOpt msg.file_name key
        let u1 := update_job_state job_id (some "received".toList) (some 5) none
          (("file_key".toList, .s key) ::
            (if file_name ≠ [] then [("file_name".toList, .s file_name)] else []))
        let u2 := update_job_state job_id (some "processing".toList) (some 10) none []
        match r.extractionResult with
        | .error e =>
          (.error e, (u1 :: u2 :: r.extractionUpdates) ++ [failedUpdate job_id e], [])
        | .ok lines =>
          let cs := chunking_step enableAgentic job_id r lines
          let u85 := update_job_state job_id (some "storing_chunks".toList) (some 85) none []
          let total := max 1 cs.2.length
          let st := storeLoop job_id key uuidGen now total cs.2 0 85
          let uDone := update_job_state job_id (some "completed".toList) (some 100) none
            [("chunk_count".toList, .n cs.2.length)]
          (.ok (), (u1 :: u2 :: r.extractionUpdates) ++ cs.1 ++ [u85] ++ st.1 ++ [uDone], st.2)

/-! ### Verification-specific definitions -/

/-- The head of `l`, when it exists, is not whitespace. -/
def headNonWS (l : Str) : Prop := ∀ c, l.head? = some c → isWS c = false

/-- The last character of `l`, when it exists, is not whitespace. -/
def lastNonWS (l : Str) : Prop := ∀ c, l.getLast? = some c → isWS c = false

/-- Length of the longest line text. -/
def maxLineLen (lines : List TextLine) : Nat :=
  (lines.map fun l => l.text.length).foldr max 0

/-- Overlap carry-over relation between two consecutive chunks: when the
trailing `ov` characters of the first chunk's text contain a
non-whitespace character, the second chunk's text starts with those
characters less their leading whitespace. -/
def ovCarry (ov : Nat) (c1 c2 : Chunk) : Prop :=
  lstripL (takeLast ov c1.text) ≠ [] →
    beginsWith (lstripL (takeLast ov c1.text)) c2.text

/-- Concrete message of a record whose extraction stage times out. -/
def c9msg : PyMsg := ⟨some "j".toList, some "b".toList, some "k".toList, none⟩

/-- The `TimeoutError` raised when Textract polling exceeds the max wait. -/
def c9err : PyErr :=
  .timeoutError "Textract polling exceeded worker max wait".toList

/-- Record input whose extraction stage raises `c9err`. -/
def c9input : RecordInput := ⟨.ok c9msg, [], .error c9err, .ok none, .ok none⟩

/-! ### String-handling lemmas -/

theorem length_dropWhile_le (p : Char → Bool) (l : Str) :
    (l.dropWhile p).length ≤ l.length := by
  induction l with
  | nil => simp [List.dropWhile]
  | cons a rest ih =>
    by_cases hp : p a
    · simp only [List.dropWhile_cons, hp, if_pos]
      simp only [List.length_cons]
      omega
    · simp [List.dropWhile_cons, hp]

theorem lstripL_length_le (l : Str) : (lstripL l).length ≤ l.length :=
  length_dropWhile_le isWS l

theorem rstripL_length_le (l : Str) : (rstripL l).length ≤ l.length := by
  unfold rstripL
  calc ((l.reverse.dropWhile isWS).reverse).length
      = (l.reverse.dropWhile isWS).length := by simp
    _ ≤ l.reverse.length := length_dropWhile_le isWS l.reverse
    _ = l.length := by simp

theorem stripL_length_le (l : Str) : (stripL l).length ≤ l.length :=
  le_trans (rstripL_length_le _) (lstripL_length_le _)

theorem takeLast_length_le (n : Nat) (l : Str) : (takeLast n l).length ≤ n := by
  unfold takeLast
  simp only [List.length_drop]
  omega

theorem dropWhile_head_not (p : Char → Bool) (l : Str) :
    ∀ c, (l.dropWhile p).head? = some c → p c = false := by
  induction l with
  | nil => intro c h; simp [List.dropWhile] at h
  | cons a rest ih =>
    intro c h
    by_cases hp : p a
    · rw [List.dropWhile_cons, if_pos hp] at h
      exact ih c h
    · rw [List.dropWhile_cons, if_neg hp] at h
      simp only [List.head?_cons, Option.some.injEq] at h
      subst h
      simpa using hp

theorem headNonWS_lstripL (l : Str) : headNonWS (lstripL l) :=
  fun c h => dropWhile_head_not isWS l c h

theorem lastNonWS_rstripL (l : Str) : lastNonWS (rstripL l) := by
  intro c h
  unfold rstripL at h
  rw [List.getLast?_reverse] at h
  exact dropWhile_head_not isWS l.reverse c h

theorem dropWhile_eq_self_of_head (p : Char → Bool) (l : Str)
    (h : ∀ c, l.head? = some c → p c = false) : l.dropWhile p = l := by
  cases l with
  | nil => rfl
  | cons a rest =>
    have ha := h a rfl
    simp [List.dropWhile_cons, ha]

theorem lstripL_eq_self (l : Str) (h : headNonWS l) : lstripL l = l :=
  dropWhile_eq_self_of_head isWS l h

theorem rstripL_eq_self (l : Str) (h : lastNonWS l) : rstripL l = l := by
  unfold rstripL
  rw [dropWhile_eq_self_of_head isWS l.reverse ?_, List.reverse_reverse]
  intro c hc
  rw [List.head?_reverse] at hc
  exact h c hc

theorem rstripL_decomp (z : Str) :
    rstripL z ++ (z.reverse.takeWhile isWS).reverse = z := by
  unfold rstripL
  rw [← List.reverse_append, List.takeWhile_append_dropWhile, List.reverse_reverse]

theorem head?_rstripL (z : Str) (c : Char) (h : (rstripL z).head? = some c) :
    z.head? = some c := by
  conv_lhs => rw [← rstripL_decomp z]
  cases hz : rstripL z with
  | nil => rw [hz] at h; simp at h
  | cons a t =>
    rw [hz] at h
    simpa using h

theorem headNonWS_stripL (l : Str) : headNonWS (stripL l) := by
  intro c h
  unfold stripL at h
  exact headNonWS_lstripL l c (head?_rstripL _ c h)

theorem lastNonWS_stripL (l : Str) : lastNonWS (stripL l) :=
  lastNonWS_rstripL _

theorem stripL_eq_self (l : Str) (hh : headNonWS l) (hl : lastNonWS l) :
    stripL l = l := by
  unfold stripL
  rw [lstripL_eq_self l hh, rstripL_eq_self l hl]

theorem getLast?_dropWhile (p : Char → Bool) (l : Str)
    (h : l.dropWhile p ≠ []) : (l.dropWhile p).getLast? = l.getLast? := by
  induction l with
  | nil => simp [List.dropWhile] at h
  | cons a rest ih =>
    by_cases hp : p a
    · rw [List.dropWhile_cons, if_pos hp] at h ⊢
      cases rest with
      | nil => simp [List.dropWhile] at h
      | cons b t =>
        rw [List.getLast?_cons_cons]
        exact ih h
    · rw [List.dropWhile_cons, if_neg hp]

theorem getLast?_lstripL (l : Str) (h : lstripL l ≠ []) :
    (lstripL l).getLast? = l.getLast? :=
  getLast?_dropWhile isWS l h

theorem getLast?_drop (l : Str) (n : Nat) (h : l.drop n ≠ []) :
    (l.drop n).getLast? = l.getLast? := by
  induction l generalizing n with
  | nil => simp at h
  | cons a rest ih =>
    cases n with
    | zero => rfl
    | succ m =>
      rw [List.drop_succ_cons] at h ⊢
      cases rest with
      | nil => simp at h
      | cons b t =>
        rw [List.getLast?_cons_cons]
        exact ih m h

theorem getLast?_takeLast (n : Nat) (l : Str) (h : takeLast n l ≠ []) :
    (takeLast n l).getLast? = l.getLast? := by
  unfold takeLast at h ⊢
  exact getLast?_drop l _ h

theorem beginsWith_refl (l : Str) : beginsWith l l := by
  unfold beginsWith
  exact List.take_length l

theorem beginsWith_append (a t : Str) : beginsWith a (a ++ t) := by
  unfold beginsWith
  exact List.take_left a t

theorem beginsWith_iff (p l : Str) : beginsWith p l ↔ ∃ t, l = p ++ t := by
  constructor
  · intro h
    refine ⟨l.drop p.length, ?_⟩
    conv_lhs => rw [← List.take_append_drop p.length l]
    rw [h]
  · rintro ⟨t, rfl⟩
    exact beginsWith_append p t

theorem beginsWith_trans (a b c : Str) (h1 : beginsWith a b) (h2 : beginsWith b c) :
    beginsWith a c := by
  rw [beginsWith_iff] at h1 h2 ⊢
  obtain ⟨t1, rfl⟩ := h1
  obtain ⟨t2, rfl⟩ := h2
  exact ⟨t1 ++ t2, by rw [List.append_assoc]⟩

theorem rstripL_append (a b : Str) (hl : lastNonWS a) :
    rstripL (a ++ b) = a ++ rstripL b := by
  unfold rstripL
  rw [List.reverse_append]
  have hself : a.reverse.dropWhile isWS = a.reverse := by
    apply dropWhile_eq_self_of_head
    intro c hc
    rw [List.head?_reverse] at hc
    exact hl c hc
  by_cases hb : b.reverse.dropWhile isWS = []
  · rw [List.dropWhile_append, if_pos (by simpa using hb), hself, List.reverse_reverse, hb]
    simp
  · rw [List.dropWhile_append, if_neg (by simpa using hb), List.reverse_append,
      List.reverse_reverse]

theorem stripL_append (a b : Str) (ha : a ≠ []) (hh : headNonWS a)
    (hl : lastNonWS a) : stripL (a ++ b) = a ++ rstripL b := by
  unfold stripL
  have h1 : lstripL (a ++ b) = a ++ b := by
    apply dropWhile_eq_self_of_head
    intro c hc
    cases a with
    | nil => exact absurd rfl ha
    | cons x t =>
      simp only [List.cons_append, List.head?_cons, Option.some.injEq] at hc
      exact hc ▸ hh x rfl
  rw [h1, rstripL_append a b hl]

/-! ### Chunker invariants -/

theorem le_maxLineLen (lines : List TextLine) :
    ∀ l ∈ lines, l.text.length ≤ maxLineLen lines := by
  induction lines with
  | nil => simp
  | cons a rest ih =>
    intro l hl
    have hmax : maxLineLen (a :: rest) = max a.text.length (maxLineLen rest) := rfl
    rcases List.mem_cons.mp hl with h | h
    · subst h; rw [hmax]; exact le_max_left _ _
    · rw [hmax]; exact le_trans (ih l h) (le_max_right _ _)

theorem chunkLoop_text_le (cs ov M : Nat) (lines : List TextLine) :
    ∀ (cur : Str) (pages : List Nat) (cc : Nat),
      cur.length ≤ max cs (ov + 1 + M) →
      (∀ l ∈ lines, l.text.length ≤ M) →
      ∀ c ∈ chunkLoop cs ov lines cur pages cc,
        c.text.length ≤ max cs (ov + 1 + M) := by
  induction lines with
  | nil =>
    intro cur pages cc hcur _ c hc
    unfold chunkLoop at hc
    by_cases h : cur ≠ []
    · rw [if_pos h] at hc
      simp only [List.mem_singleton] at hc
      subst hc
      exact le_trans (stripL_length_le cur) hcur
    · rw [if_neg h] at hc
      exact absurd hc (List.not_mem_nil c)
  | cons line rest ih =>
    intro cur pages cc hcur hl c hc
    have hline : line.text.length ≤ M := hl line (List.mem_cons_self line rest)
    have hrest : ∀ l ∈ rest, l.text.length ≤ M :=
      fun l h => hl l (List.mem_cons_of_mem line h)
    rw [chunkLoop] at hc
    by_cases h : cs < cur.length + line.text.length + 1
    · rw [if_pos h] at hc
      rcases List.mem_cons.mp hc with h1 | h1
      · subst h1
        exact le_trans (stripL_length_le cur) hcur
      · refine ih _ _ _ ?_ hrest c h1
        have hov : (if 0 < ov then takeLast ov cur else []).length ≤ ov := by
          by_cases hp : 0 < ov
          · rw [if_pos hp]; exact takeLast_length_le ov cur
          · rw [if_neg hp]; simp
        have hlen := stripL_length_le
          ((if 0 < ov then takeLast ov cur else []) ++ ' ' :: line.text)
        simp only [List.length_append, List.length_cons] at hlen
        have := le_max_right cs (ov + 1 + M)
        omega
    · rw [if_neg h] at hc
      refine ih _ _ _ ?_ hrest c hc
      have hlen := stripL_length_le (cur ++ ' ' :: line.text)
      simp only [List.length_append, List.length_cons] at hlen
      have := le_max_left cs (ov + 1 + M)
      omega

/-- Everything every later buffer accumulates is appended on the right:
the head chunk of the loop output extends the (non-empty, stripped)
incoming buffer. -/
theorem chunkLoop_head_begins (cs ov : Nat) (lines : List TextLine) :
    ∀ (cur : Str) (pages : List Nat) (cc : Nat),
      cur ≠ [] → headNonWS cur → lastNonWS cur →
      ∀ c, (chunkLoop cs ov lines cur pages cc).head? = some c →
        beginsWith cur c.text := by
  induction lines with
  | nil =>
    intro cur pages cc hne hh hl c hc
    unfold chunkLoop at hc
    rw [if_pos hne] at hc
    simp only [List.head?_cons, Option.some.injEq] at hc
    rw [← hc]
    rw [stripL_eq_self cur hh hl]
    exact beginsWith_refl cur
  | cons line rest ih =>
    intro cur pages cc hne hh hl c hc
    rw [chunkLoop] at hc
    by_cases h : cs < cur.length + line.text.length + 1
    · rw [if_pos h] at hc
      simp only [List.head?_cons, Option.some.injEq] at hc
      rw [← hc]
      rw [stripL_eq_self cur hh hl]
      exact beginsWith_refl cur
    · rw [if_neg h] at hc
      have hrw : stripL (cur ++ ' ' :: line.text) = cur ++ rstripL (' ' :: line.text) :=
        stripL_append cur _ hne hh hl
      have hne' : stripL (cur ++ ' ' :: line.text) ≠ [] := by
        rw [hrw]
        simp [hne]
      have hb := ih _ _ _ hne' (headNonWS_stripL _) (lastNonWS_stripL _) c hc
      refine beginsWith_trans cur _ c.text ?_ hb
      rw [hrw]
      exact beginsWith_append cur _

theorem chunkLoop_chain (cs ov : Nat) (lines : List TextLine) :
    ∀ (cur : Str) (pages : List Nat) (cc : Nat),
      headNonWS cur → lastNonWS cur →
      List.Chain' (ovCarry ov) (chunkLoop cs ov lines cur pages cc) := by
  induction lines with
  | nil =>
    intro cur pages cc hh hl
    unfold chunkLoop
    by_cases hne : cur ≠ []
    · rw [if_pos hne]; exact List.chain'_singleton _
    · rw [if_neg hne]; exact List.chain'_nil
  | cons line rest ih =>
    intro cur pages cc hh hl
    rw [chunkLoop]
    by_cases h : cs < cur.length + line.text.length + 1
    · rw [if_pos h]
      rw [List.chain'_cons']
      refine ⟨?_, ih _ _ _ (headNonWS_stripL _) (lastNonWS_stripL _)⟩
      intro c2 hc2
      rw [Option.mem_def] at hc2
      unfold ovCarry
      dsimp only
      rw [stripL_eq_self cur hh hl]
      intro hA
      -- the trailing slice is non-empty, so `overlap` must be positive
      have hovpos : 0 < ov := by
        by_contra hp
        have hov0 : ov = 0 := by omega
        rw [hov0] at hA
        have ht0 : takeLast 0 cur = [] := by
          unfold takeLast
          rw [Nat.sub_zero, List.drop_length]
        rw [ht0] at hA
        exact absurd rfl hA
      rw [if_pos hovpos] at hc2
      have hovne : takeLast ov cur ≠ [] := by
        intro hEq
        rw [hEq] at hA
        exact absurd rfl hA
      -- the stripped trailing slice ends with the buffer's last character
      have hlA : lastNonWS (lstripL (takeLast ov cur)) := by
        intro d hd
        rw [getLast?_lstripL _ hA] at hd
        rw [getLast?_takeLast ov cur hovne] at hd
        exact hl d hd
      -- the next buffer starts with the stripped trailing slice
      have hA' : ¬((takeLast ov cur).dropWhile isWS).isEmpty = true := by
        rw [List.isEmpty_iff]
        exact hA
      have h2 : lstripL (takeLast ov cur ++ ' ' :: line.text) =
          lstripL (takeLast ov cur) ++ ' ' :: line.text := by
        unfold lstripL
        rw [List.dropWhile_append, if_neg hA']
      have h3 : stripL (takeLast ov cur ++ ' ' :: line.text) =
          lstripL (takeLast ov cur) ++ rstripL (' ' :: line.text) := by
        unfold stripL
        rw [h2]
        exact rstripL_append _ _ hlA
      have hne' : stripL (takeLast ov cur ++ ' ' :: line.text) ≠ [] := by
        rw [h3]
        intro hEq
        exact hA (List.append_eq_nil.mp hEq).1
      have hb := chunkLoop_head_begins cs ov rest _ _ _ hne'
        (headNonWS_stripL _) (lastNonWS_stripL _) c2 hc2
      refine beginsWith_trans _ _ c2.text ?_ hb
      rw [h3]
      exact beginsWith_append _ _
    · rw [if_neg h]
      exact ih _ _ _ (headNonWS_stripL _) (lastNonWS_stripL _)

/-! ### Claim theorems -/

/-- C1 (code-bug exhibit): a permission-denied model error at the first
agentic stage does propagate out of `agentic_chunk_text`, but
`lambda_handler`'s blanket `except Exception` around the agentic branch
catches the re-raised `PermissionError` like any other failure: the job is
chunked by the naive fallback, chunks are stored, and the job completes —
the record's processing does not stop and the error is not re-raised,
contradicting the claim. -/
theorem c1_permission_error_not_fatal :
    agentic_chunk_text (.error (.permission "denied".toList))
        (.error (.permission "denied".toList)) [⟨"Hello there".toList, 1⟩] =
      .error (.permission "denied".toList) ∧
    (processRecord true "f".toList (fun _ => "u".toList) "T".toList
        ⟨.ok ⟨some "j1".toList, some "b".toList, some "k".toList, some "fn".toList⟩,
          [], .ok [⟨"Hello there".toList, 1⟩],
          .error (.permission "denied".toList),
          .error (.permission "denied".toList)⟩).1 = .ok () ∧
    ((processRecord true "f".toList (fun _ => "u".toList) "T".toList
        ⟨.ok ⟨some "j1".toList, some "b".toList, some "k".toList, some "fn".toList⟩,
          [], .ok [⟨"Hello there".toList, 1⟩],
          .error (.permission "denied".toList),
          .error (.permission "denied".toList)⟩).2.1).map JobUpdate.state =
      [some "received".toList, some "processing".toList, some "chunking_started".toList,
       some "chunking_fallback_naive".toList, some "storing_chunks".toList,
       some "storing_chunks".toList, some "completed".toList] := by
  refine ⟨by decide, by decide, by decide⟩

/-- C2 (code-bug exhibit): the proposition-extraction user prompt is built
from `full_text` before the `[:20000]` truncation, so for a text of 20001
characters whose character at position 20000 is `'Z'` (and which contains
`'Z'` nowhere among its first 20000 characters), the request text sent to
the model still contains `'Z'`. -/
theorem c2_prompt_contains_char_beyond_20000 :
    'Z' ∉ (List.replicate 20000 'a' ++ ['Z']).take 20000 ∧
    'Z' ∈ extract_user_prompt (List.replicate 20000 'a' ++ ['Z']) := by
  constructor
  · rw [List.take_left' (List.length_replicate 20000 'a')]
    intro h
    rw [List.mem_replicate] at h
    exact absurd h.2 (by decide)
  · unfold extract_user_prompt
    refine List.mem_append.mpr (Or.inl ?_)
    refine List.mem_append.mpr (Or.inr ?_)
    refine List.mem_append.mpr (Or.inr ?_)
    exact List.mem_singleton.mpr rfl

/-- C3 counterexample: with a model that always raises a non-permission
error, `agentic_chunk_text` on a single line of text `"a"` on page 2 does
not return `chunk_text_with_offsets` of those same lines — the fallback
rebuilds the lines from the joined text with every page set to 1. -/
theorem c3_counterexample :
    agentic_chunk_text (.error (.clientError "ThrottlingException".toList "m".toList))
        (.error (.clientError "ThrottlingException".toList "m".toList)) [⟨['a'], 2⟩] ≠
      .ok ((chunk_text_with_offsets [⟨['a'], 2⟩] 800 100).map AnyChunk.naive) := by
  decide

/-- C3 (amended): with a language-model client that raises a
non-permission error on every call, `agenticChunk` returns exactly
`chunkWithOffsets` (chunk size 800, overlap 100) applied to the lines
rebuilt from the concatenated text — each non-blank line of `fullText`
with page 1 — rather than to the original lines. -/
theorem c3_fallback_eq_naive_on_rebuilt_lines (lines : List TextLine) (e1 e2 : PyErr)
    (h1 : e1.isPerm = false) (h2 : e2.isPerm = false) :
    agentic_chunk_text (.error e1) (.error e2) lines =
      .ok ((chunk_text_with_offsets
        (agentic_fallback_lines (agentic_full_text lines)) 800 100).map AnyChunk.naive) := by
  have hex : agentic_propositions_stage (.error e1) (agentic_full_text lines) = .ok [] := by
    unfold agentic_propositions_stage extract_propositions_from_text
    simp [h1]
  unfold agentic_chunk_text
  simp only [hex]
  rfl

theorem c3_fallback_witness :
    (PyErr.clientError "T".toList "m".toList).isPerm = false ∧
    agentic_chunk_text (.error (.clientError "T".toList "m".toList))
        (.error (.clientError "T".toList "m".toList)) [⟨['a'], 2⟩] =
      .ok ((chunk_text_with_offsets
        (agentic_fallback_lines (agentic_full_text [⟨['a'], 2⟩])) 800 100).map AnyChunk.naive) :=
  ⟨rfl, c3_fallback_eq_naive_on_rebuilt_lines [⟨['a'], 2⟩] _ _ rfl rfl⟩

/-- C4 (code-bug exhibit): the item `_put_chunk` writes has exactly the
attributes `chunk_id`, `file_key`, `title`, `summary`, `text`,
`updated_at` — no `pages` attribute — so the chunks read model defaults
`pages` to the empty list for every stored chunk. -/
theorem c4_put_chunk_has_no_pages :
    (put_chunk_item "c1".toList "doc.pdf".toList "T".toList "S".toList
        "hello".toList "now".toList).map Prod.fst =
      ["chunk_id".toList, "file_key".toList, "title".toList, "summary".toList,
       "text".toList, "updated_at".toList] ∧
    ((put_chunk_item "c1".toList "doc.pdf".toList "T".toList "S".toList
        "hello".toList "now".toList).find? fun p => p.1 == "pages".toList) = none ∧
    formatted_pages (put_chunk_item "c1".toList "doc.pdf".toList "T".toList
      "S".toList "hello".toList "now".toList) = .pages [] := by
  refine ⟨by decide, by decide, by decide⟩

/-- C5 counterexample: with chunk size 5 and overlap 2, a single line of 8
characters yields a chunk whose text has length 8, exceeding chunk size
plus one overlap window (7). -/
theorem c5_counterexample :
    ∃ c ∈ chunk_text_with_offsets [⟨"abcdefgh".toList, 1⟩] 5 2,
      5 + 2 < c.text.length := by
  decide

/-- C5 (amended): every chunk's text length is bounded by
`max chunkSize (overlap + 1 + maxLineLen lines)`: the claimed
`chunkSize + overlap` bound holds only up to the longest single line,
because a line longer than the chunk size is carried whole into the next
buffer. -/
theorem c5_chunk_text_le_max (lines : List TextLine) (chunk_size overlap : Nat)
    (c : Chunk) (hc : c ∈ chunk_text_with_offsets lines chunk_size overlap) :
    c.text.length ≤ max chunk_size (overlap + 1 + maxLineLen lines) :=
  chunkLoop_text_le chunk_size overlap (maxLineLen lines) lines [] [] 0
    (by simp) (le_maxLineLen lines) c hc

theorem c5_witness :
    (⟨['a'], 0, 1, [1]⟩ : Chunk) ∈ chunk_text_with_offsets [⟨['a'], 1⟩] 800 100 ∧
    (⟨['a'], 0, 1, [1]⟩ : Chunk).text.length ≤
      max 800 (100 + 1 + maxLineLen [⟨['a'], 1⟩]) :=
  ⟨by decide, c5_chunk_text_le_max [⟨['a'], 1⟩] 800 100 ⟨['a'], 0, 1, [1]⟩ (by decide)⟩

/-- C6 counterexample: lines `["ab", "cd", "xy"]` with chunk size 5 and
overlap 3 produce chunks `"ab cd"` and `"cd xy"`; the first chunk was
closed due to size (it has a successor), yet the second chunk does not
begin with `" cd"`, the trailing 3 characters of the first chunk's text,
because the carried overlap is stripped of leading whitespace. -/
theorem c6_counterexample :
    ((chunk_text_with_offsets
        [⟨"ab".toList, 1⟩, ⟨"cd".toList, 1⟩, ⟨"xy".toList, 1⟩] 5 3).map Chunk.text =
      ["ab cd".toList, "cd xy".toList]) ∧
    ¬ beginsWith
      (takeLast 3 (((chunk_text_with_offsets
        [⟨"ab".toList, 1⟩, ⟨"cd".toList, 1⟩, ⟨"xy".toList, 1⟩] 5 3).getD 0
          ⟨[], 0, 0, []⟩).text))
      (((chunk_text_with_offsets
        [⟨"ab".toList, 1⟩, ⟨"cd".toList, 1⟩, ⟨"xy".toList, 1⟩] 5 3).getD 1
          ⟨[], 0, 0, []⟩).text) := by
  refine ⟨by decide, by decide⟩

/-- C6 (amended): whenever `overlap > 0`, chunk `i` was closed due to size
(equivalently, chunk `i+1` exists: only the final chunk can be closed by
end-of-input) and the trailing `overlap` characters of chunk `i`'s text
contain a non-whitespace character, chunk `i+1`'s text begins with those
trailing characters stripped of their leading whitespace. -/
theorem c6_overlap_carry (lines : List TextLine) (cs ov i : Nat)
    (hov : 0 < ov)
    (hlen : i + 1 < (chunk_text_with_offsets lines cs ov).length)
    (hA : lstripL (takeLast ov
      (((chunk_text_with_offsets lines cs ov).getD i ⟨[], 0, 0, []⟩).text)) ≠ []) :
    beginsWith
      (lstripL (takeLast ov
        (((chunk_text_with_offsets lines cs ov).getD i ⟨[], 0, 0, []⟩).text)))
      (((chunk_text_with_offsets lines cs ov).getD (i + 1) ⟨[], 0, 0, []⟩).text) := by
  unfold chunk_text_with_offsets at hlen hA ⊢
  have hchain := chunkLoop_chain cs ov lines [] [] 0
    (by intro c hc; simp at hc) (by intro c hc; simp at hc)
  rw [List.chain'_iff_get] at hchain
  have hi : i < (chunkLoop cs ov lines [] [] 0).length := by omega
  have hgd1 : (chunkLoop cs ov lines [] [] 0).getD i ⟨[], 0, 0, []⟩ =
      (chunkLoop cs ov lines [] [] 0).get ⟨i, hi⟩ := by
    rw [List.getD_eq_getElem?_getD, List.getElem?_eq_getElem hi]
    rfl
  have hgd2 : (chunkLoop cs ov lines [] [] 0).getD (i + 1) ⟨[], 0, 0, []⟩ =
      (chunkLoop cs ov lines [] [] 0).get ⟨i + 1, hlen⟩ := by
    rw [List.getD_eq_getElem?_getD, List.getElem?_eq_getElem hlen]
    rfl
  have h := hchain i (by omega)
  unfold ovCarry at h
  rw [hgd1, hgd2]
  rw [hgd1] at hA
  exact h hA

theorem c6_witness :
    0 < 3 ∧
    0 + 1 < (chunk_text_with_offsets
      [⟨"ab".toList, 1⟩, ⟨"cd".toList, 1⟩, ⟨"xy".toList, 1⟩] 5 3).length ∧
    lstripL (takeLast 3 (((chunk_text_with_offsets
      [⟨"ab".toList, 1⟩, ⟨"cd".toList, 1⟩, ⟨"xy".toList, 1⟩] 5 3).getD 0
        ⟨[], 0, 0, []⟩).text)) ≠ [] ∧
    beginsWith
      (lstripL (takeLast 3 (((chunk_text_with_offsets
        [⟨"ab".toList, 1⟩, ⟨"cd".toList, 1⟩, ⟨"xy".toList, 1⟩] 5 3).getD 0
          ⟨[], 0, 0, []⟩).text)))
      (((chunk_text_with_offsets
        [⟨"ab".toList, 1⟩, ⟨"cd".toList, 1⟩, ⟨"xy".toList, 1⟩] 5 3).getD 1
          ⟨[], 0, 0, []⟩).text) :=
  ⟨by decide, by decide, by decide,
    c6_overlap_carry [⟨"ab".toList, 1⟩, ⟨"cd".toList, 1⟩, ⟨"xy".toList, 1⟩] 5 3 0
      (by decide) (by decide) (by decide)⟩

/-- C7 counterexample: a non-permission model error at the clustering
stage yields zero clusters, not the single "General" cluster with all
input propositions, because `cluster_propositions_agentically` lets the
exception escape and `agentic_chunk_text` replaces the result with `[]`. -/
theorem c7_counterexample :
    agentic_clusters_stage
      (.error (.clientError "ThrottlingException".toList "e".toList)) [['p']] = .ok [] ∧
    agentic_clusters_stage
      (.error (.clientError "ThrottlingException".toList "e".toList)) [['p']] ≠
        .ok [general_cluster [['p']]] := by
  refine ⟨by decide, by decide⟩

/-- C7 (amended): when the clustering model call returns a response from
which zero valid clusters are parsed, the result is exactly one cluster
with id "c0001", title "General", summary "General related content" and
all input propositions; for an empty proposition list the result is the
empty cluster list (a raised non-permission model error instead yields
zero clusters and the later naive fallback, not the General cluster). -/
theorem c7_general_fallback (props : List Str) (j : Option JVal)
    (resp : Except PyErr (Option JVal))
    (hne : props ≠ [])
    (hparse : parse_clusters (pyOrEmptyObj j) = .ok []) :
    cluster_propositions_agentically (.ok j) props = .ok [general_cluster props] ∧
    cluster_propositions_agentically resp [] = .ok [] := by
  constructor
  · unfold cluster_propositions_agentically
    rw [if_neg hne]
    simp only [hparse]
    rfl
  · unfold cluster_propositions_agentically
    rw [if_pos rfl]

theorem c7_general_fallback_witness :
    ([['p']] : List Str) ≠ [] ∧
    parse_clusters (pyOrEmptyObj none) = .ok [] ∧
    cluster_propositions_agentically (.ok none) [['p']] =
      .ok [general_cluster [['p']]] ∧
    cluster_propositions_agentically (.ok none) ([] : List Str) = .ok [] := by
  refine ⟨by decide, by decide, ?_, ?_⟩
  · exact (c7_general_fallback [['p']] none (.ok none) (by decide) (by decide)).1
  · exact (c7_general_fallback [['p']] none (.ok none) (by decide) (by decide)).2

/-- C8: during polling, whenever the external job is still running, the
timeout has not fired, and more than 15 time units have elapsed since the
last heartbeat, the poller emits a heartbeat whose state is the polling
state (the source string `"textract_polling"`, which the specification
names `extraction_polling`) and whose progress is exactly
`min(55, 20 + floor(35 * elapsed / maxWait))`. -/
theorem c8_poll_heartbeat_progress (maxWait startTs lastHb : ℚ) (o : PollObs)
    (rest : List PollObs)
    (hrun : ¬(o.jobStatus = "SUCCEEDED".toList ∨ o.jobStatus = "FAILED".toList))
    (hto : ¬ maxWait < o.t - startTs)
    (hhb : 15 < o.t - lastHb)
    (helapsed : 0 ≤ o.t - startTs) (hmw : 0 ≤ maxWait) :
    (textract_poll maxWait startTs (o :: rest) lastHb).1.head? =
      some ⟨"textract_polling".toList,
        min 55 (20 + ⌊35 * (o.t - startTs) / maxWait⌋)⟩ := by
  have hq : (0:ℚ) ≤ (o.t - startTs) / maxWait * 35 :=
    mul_nonneg (div_nonneg helapsed hmw) (by norm_num)
  have hpy : pyInt ((o.t - startTs) / maxWait * 35) =
      ⌊35 * (o.t - startTs) / maxWait⌋ := by
    unfold pyInt
    rw [if_pos hq]
    congr 1
    ring
  rw [textract_poll]
  rw [if_neg hrun, if_neg hto, if_pos hhb]
  dsimp only
  rw [hpy]
  rfl

theorem c8_poll_heartbeat_witness :
    ¬(("IN_PROGRESS".toList : Str) = "SUCCEEDED".toList ∨
        ("IN_PROGRESS".toList : Str) = "FAILED".toList) ∧
    ¬((600:ℚ) < 20 - 0) ∧ (15:ℚ) < 20 - 0 ∧ (0:ℚ) ≤ 20 - 0 ∧ (0:ℚ) ≤ 600 ∧
    (textract_poll 600 0 [⟨"IN_PROGRESS".toList, 20⟩] 0).1.head? =
      some ⟨"textract_polling".toList, 21⟩ := by
  refine ⟨by decide, by norm_num, by norm_num, by norm_num, by norm_num, ?_⟩
  have h := c8_poll_heartbeat_progress 600 0 0 ⟨"IN_PROGRESS".toList, 20⟩ []
    (by decide) (by norm_num) (by norm_num) (by norm_num) (by norm_num)
  rw [h]
  have hf : ⌊(35 * ((20:ℚ) - 0) / 600 : ℚ)⌋ = 1 := by
    rw [Int.floor_eq_iff] <;> norm_num
  rw [hf]
  decide

/-- C9: for every record whose body parses (so `job_id` is bound), if the
record's processing re-raises an error `e`, the last attempted job update
records state `failed` with the message `str(e)` truncated to 1000
characters; the result is the same error `e`, which `lambda_handler`
re-raises to the queue for redelivery or dead-lettering. -/
theorem c9_failed_recorded_and_reraised (enableAgentic : Bool) (freshJobId : Str)
    (uuidGen : Nat → Str) (now : Str) (r : RecordInput) (msg : PyMsg) (e : PyErr)
    (hbody : r.parsedBody = .ok msg)
    (herr : (processRecord enableAgentic freshJobId uuidGen now r).1 = .error e) :
    ((processRecord enableAgentic freshJobId uuidGen now r).2.1).getLast? =
      some ⟨pyOrOpt msg.job_id freshJobId, some "failed".toList, none,
        some (e.pymsg.take 1000), []⟩ := by
  unfold processRecord at herr ⊢
  rw [hbody] at herr ⊢
  obtain ⟨jid, bu, ke, fn⟩ := msg
  cases bu with
  | none =>
    simp only at herr ⊢
    injection herr with he
    subst he
    simp [failedUpdate, update_job_state]
  | some bval =>
    cases ke with
    | none =>
      simp only at herr ⊢
      injection herr with he
      subst he
      simp [failedUpdate, update_job_state]
    | some kval =>
      cases hext : r.extractionResult with
      | error e2 =>
        rw [hext] at herr
        simp only at herr ⊢
        injection herr with he
        subst he
        rw [List.getLast?_concat]
        simp [failedUpdate, update_job_state]
      | ok lines =>
        rw [hext] at herr
        simp only at herr
        exact absurd herr (by simp)

theorem c9_failed_recorded_witness :
    c9input.parsedBody = .ok c9msg ∧
    (processRecord true "f".toList (fun _ => "u".toList) "T".toList c9input).1 =
      .error c9err ∧
    ((processRecord true "f".toList (fun _ => "u".toList) "T".toList
        c9input).2.1).getLast? =
      some ⟨pyOrOpt c9msg.job_id "f".toList, some "failed".toList, none,
        some (c9err.pymsg.take 1000), []⟩ :=
  ⟨rfl, rfl, c9_failed_recorded_and_reraised true "f".toList (fun _ => "u".toList)
    "T".toList c9input c9msg c9err rfl rfl⟩

/-- C10: whenever the first line's text is at least `chunk_size` long, the
size condition fires on the very first iteration with an empty buffer, so
the first emitted chunk has empty text, `start = end = 0`, and an empty
page list, ahead of any chunk with content. -/
theorem c10_first_chunk_empty (l : TextLine) (rest : List TextLine)
    (chunk_size overlap : Nat) (h : chunk_size ≤ l.text.length) :
    (chunk_text_with_offsets (l :: rest) chunk_size overlap).head? =
      some ⟨[], 0, 0, []⟩ := by
  unfold chunk_text_with_offsets chunkLoop
  rw [if_pos (by simp; omega)]
  rfl

theorem c10_first_chunk_empty_witness :
    3 ≤ "abcdef".toList.length ∧
    (chunk_text_with_offsets [⟨"abcdef".toList, 1⟩] 3 1).head? =
      some ⟨[], 0, 0, []⟩ :=
  ⟨by decide, c10_first_chunk_empty ⟨"abcdef".toList, 1⟩ [] 3 1 (by decide)⟩

end Delphi
